import Mathlib

/-!
Verification of the HTTP/2 frame / HPACK header parser
(`src/rust/src/http2/parser.rs`).

Bytes are modelled as `Nat` values below 256; byte buffers are `List Nat`.
Machine integers (`u64`, `usize`) are modelled as `Nat`, with an explicit
`% 2^64` at the one accumulation where the Rust `u64` could wrap.
Fallible parsers (`IResult`) are modelled as `Option (remainder × result)`;
`none` covers both nom `Err::Error` and `Err::Incomplete`.
Bit-pattern tests on a byte `b < 256` are written arithmetically:
`(b & 0x80) != 0` is `128 ≤ b`, `b >> 4` is `b / 16`, `b & 0x7F` is `b % 128`.
-/

namespace Http2

/-- Decode status attached to a header field
(`HTTP2HeaderDecodeStatus` in parser.rs). -/
inductive HTTP2HeaderDecodeStatus where
  | Success
  | SizeUpdate
  | Error
  | NotIndexed
  | IntegerOverflow
  | Index0
deriving DecidableEq

/-- A decoded header field (`HTTP2FrameHeaderBlock` in parser.rs).
`name` and `value` are byte vectors. -/
structure HTTP2FrameHeaderBlock where
  name : List Nat
  value : List Nat
  error : HTTP2HeaderDecodeStatus
  sizeupdate : Nat
deriving DecidableEq

/-- Modelled from the spec: the absolute protocol ceiling on the dynamic
table size, `HTTP2_MAX_TABLESIZE`, is declared in `http2.rs`, which is not
among the sources; the spec (§4.6) only calls it "the absolute protocol
ceiling", a fixed constant, so a concrete value is used here. -/
def HTTP2_MAX_TABLESIZE : Nat := 65536

/-- Modelled from the spec: `HTTP2DynTable` is declared in `http2.rs`,
which is not among the sources.  Fields follow the spec §3 "DynamicTable"
and the accesses made by parser.rs: an insertion-ordered entry list
(newest at the tail), `current_size`, `max_size`, and the 3-valued
`overflow` state (0 = Clean, 1 = Pending, 2 = Overflowed, matching the
numeric comparisons `overflow > 0`, `overflow == 1`, `overflow = 2`
performed in parser.rs). -/
structure HTTP2DynTable where
  table : List HTTP2FrameHeaderBlock
  current_size : Nat
  max_size : Nat
  overflow : Nat
deriving DecidableEq

/-- `HTTP2_STATIC_HEADERS_NUMBER` from parser.rs. -/
def HTTP2_STATIC_HEADERS_NUMBER : Nat := 61

/-- The bytes of an ASCII string literal, as `str::as_bytes` yields them
for the ASCII-only entries of the static table. -/
def strBytes (s : String) : List Nat :=
  s.data.map Char.toNat

/-- The 61 fixed (name, value) pairs of the `match` in
`http2_frame_header_static`, in order (entry 1 first). -/
def http2_static_table_list : List (String × String) :=
  [(":authority", ""),
   (":method", "GET"),
   (":method", "POST"),
   (":path", "/"),
   (":path", "/index.html"),
   (":scheme", "http"),
   (":scheme", "https"),
   (":status", "200"),
   (":status", "204"),
   (":status", "206"),
   (":status", "304"),
   (":status", "400"),
   (":status", "404"),
   (":status", "500"),
   ("accept-charset", ""),
   ("accept-encoding", "gzip, deflate"),
   ("accept-language", ""),
   ("accept-ranges", ""),
   ("accept", ""),
   ("access-control-allow-origin", ""),
   ("age", ""),
   ("allow", ""),
   ("authorization", ""),
   ("cache-control", ""),
   ("content-disposition", ""),
   ("content-encoding", ""),
   ("content-language", ""),
   ("content-length", ""),
   ("content-location", ""),
   ("content-range", ""),
   ("content-type", ""),
   ("cookie", ""),
   ("date", ""),
   ("etag", ""),
   ("expect", ""),
   ("expires", ""),
   ("from", ""),
   ("host", ""),
   ("if-match", ""),
   ("if-modified-since", ""),
   ("if-none-match", ""),
   ("if-range", ""),
   ("if-unmodified-since", ""),
   ("last-modified", ""),
   ("link", ""),
   ("location", ""),
   ("max-forwards", ""),
   ("proxy-authenticate", ""),
   ("proxy-authorization", ""),
   ("range", ""),
   ("referer", ""),
   ("refresh", ""),
   ("retry-after", ""),
   ("server", ""),
   ("set-cookie", ""),
   ("strict-transport-security", ""),
   ("transfer-encoding", ""),
   ("user-agent", ""),
   ("vary", ""),
   ("via", ""),
   ("www-authenticate", "")]

/-- The `match n` of `http2_frame_header_static`: entries 1–61 give the
fixed pairs, every other `n` gives `("", "")`. -/
def http2_static_table (n : Nat) : String × String :=
  if 1 ≤ n ∧ n ≤ 61 then http2_static_table_list.getD (n - 1) ("", "") else ("", "")

/-- `http2_frame_header_static` from parser.rs: resolve index `n` against
the static table, then (for `n = 0` / out-of-range / in-range `n > 61`)
against the dynamic table.  The Rust function returns `Some` on every
path; the `none` arm below corresponds to the (unreachable) out-of-bounds
vector index. -/
def http2_frame_header_static (n : Nat) (dyn_headers : HTTP2DynTable) :
    Option HTTP2FrameHeaderBlock :=
  let nv := http2_static_table n
  if 0 < nv.1.length then
    some ⟨strBytes nv.1, strBytes nv.2, .Success, 0⟩
  else if n = 0 then
    some ⟨[], [], .Index0, 0⟩
  else if dyn_headers.table.length + HTTP2_STATIC_HEADERS_NUMBER < n then
    some ⟨[], [], .NotIndexed, 0⟩
  else
    match dyn_headers.table[dyn_headers.table.length - (n - HTTP2_STATIC_HEADERS_NUMBER)]? with
    | some h => some ⟨h.name, h.value, .Success, 0⟩
    | none => none

/-- The accumulation loop of `http2_parse_var_uint`:
`varSum bytes i = Σ (bytes[j] & 0x7F) << (7*(i+j))`. -/
def varSum : List Nat → Nat → Nat
  | [], _ => 0
  | b :: rest, i => (b % 128) * 2 ^ (7 * i) + varSum rest (i + 1)

/-- `http2_parse_var_uint` from parser.rs.  `value` is the already
extracted k-bit prefix-field value and `max = 2^k - 1`.  The continuation
bytes are those with the high bit set (`(ch & 0x80) != 0`, i.e. `128 ≤ ch`
for a byte); `be_u8` on an empty remainder is nom `Incomplete`, hence
`none`.  The `u64` accumulator is reproduced with an explicit `% 2^64`. -/
def http2_parse_var_uint (input : List Nat) (value max : Nat) :
    Option (List Nat × Nat) :=
  if value < max then some (input, value)
  else
    let varia := input.takeWhile (fun ch => 128 ≤ ch)
    match input.dropWhile (fun ch => 128 ≤ ch) with
    | [] => none
    | finalv :: i3 =>
      if 9 < varia.length ∨ (varia.length = 9 ∧ 1 < finalv) then
        some (i3, 0)
      else
        let varval := (max + varSum varia 0) % 2 ^ 64
        if 2 ^ 64 - 1 - varval < finalv * 2 ^ (7 * varia.length) then
          some (i3, 0)
        else
          some (i3, varval + finalv * 2 ^ (7 * varia.length))

/-- `http2_parse_headers_block_string` from parser.rs: one flag bit, a
7-bit-prefixed VarInt length, then that many raw bytes, Huffman-decoded
when the flag is set.  The Huffman collaborator (`super::huffman`, not a
source of this core) is passed in as the function `huff`, standing for
`bits!(data, many0!(http2_decode_huffman))`, which always succeeds. -/
def http2_parse_headers_block_string (huff : List Nat → List Nat)
    (input : List Nat) : Option (List Nat × List Nat) :=
  match input with
  | [] => none
  | b :: i1 =>
    match http2_parse_var_uint i1 (b % 128) 0x7F with
    | none => none
    | some (i2, stringlen) =>
      if stringlen = 0 ∧ b % 128 = 0x7F then none
      else if i2.length < stringlen then none
      else
        let data := i2.take stringlen
        let i3 := i2.drop stringlen
        if b / 128 = 0 then some (i3, data) else some (i3, huff data)

/-- `http2_parse_headers_block_literal_common` from parser.rs: decode the
name (literal string when `index = 0`, otherwise static/dynamic lookup),
then always decode a literal value string. -/
def http2_parse_headers_block_literal_common (huff : List Nat → List Nat)
    (input : List Nat) (index : Nat) (dyn_headers : HTTP2DynTable) :
    Option (List Nat × HTTP2FrameHeaderBlock) :=
  let step1 : Option (List Nat × List Nat × HTTP2HeaderDecodeStatus) :=
    if index = 0 then
      match http2_parse_headers_block_string huff input with
      | some (r, n) => some (r, n, .Success)
      | none => none
    else
      match http2_frame_header_static index dyn_headers with
      | some x => some (input, x.name, .Success)
      | none => some (input, [], .NotIndexed)
  match step1 with
  | none => none
  | some (i3, name, error) =>
    match http2_parse_headers_block_string huff i3 with
    | none => none
    | some (i4, value) => some (i4, ⟨name, value, error, 0⟩)

/-- Cost of one dynamic-table entry: `32 + len(name) + len(value)`. -/
def entryCost (h : HTTP2FrameHeaderBlock) : Nat :=
  32 + h.name.length + h.value.length

/-- Total cost of a list of entries. -/
def tableSize : List HTTP2FrameHeaderBlock → Nat
  | [] => 0
  | e :: rest => entryCost e + tableSize rest

/-- The eviction loop shared by `http2_parse_headers_block_literal_incindex`
(lines 460–468) and `http2_parse_headers_block_dynamic_size` (lines
567–579): while `current_size > bound` and entries remain, subtract the
front entry's cost and remove it. -/
def evictFrom (bound : Nat) : List HTTP2FrameHeaderBlock → Nat →
    List HTTP2FrameHeaderBlock × Nat
  | [], cur => ([], cur)
  | e :: rest, cur =>
    if bound < cur then evictFrom bound rest (cur - entryCost e)
    else (e :: rest, cur)

/-- Every subtraction performed by `evictFrom bound tbl cur` stays within
`Nat` (i.e. the `usize` subtraction of the Rust loop never underflows). -/
def evictSafe (bound : Nat) : List HTTP2FrameHeaderBlock → Nat → Prop
  | [], _ => True
  | e :: rest, cur =>
    if bound < cur then
      entryCost e ≤ cur ∧ evictSafe bound rest (cur - entryCost e)
    else True

/-- The storage decision of `http2_parse_headers_block_literal_incindex`
(lines 445–459): add the entry's cost to `current_size`, then append /
flip the overflow state / drop the entry according to `overflow`. -/
def dynTableStore (dyn : HTTP2DynTable) (headcopy : HTTP2FrameHeaderBlock) :
    HTTP2DynTable :=
  let d := { dyn with current_size := dyn.current_size + entryCost headcopy }
  if 0 < d.overflow then
    if d.overflow = 1 then
      if d.current_size ≤ HTTP2_MAX_TABLESIZE then
        { d with table := d.table ++ [headcopy] }
      else if d.max_size < d.current_size then
        { d with overflow := 2 }
      else d
    else d
  else { d with table := d.table ++ [headcopy] }

/-- The full dynamic-table mutation of
`http2_parse_headers_block_literal_incindex` (lines 445–468): the storage
decision followed by the eviction loop with bound `max_size`. -/
def dynTableAdd (dyn : HTTP2DynTable) (headcopy : HTTP2FrameHeaderBlock) :
    HTTP2DynTable :=
  let d := dynTableStore dyn headcopy
  let p := evictFrom d.max_size d.table d.current_size
  { d with table := p.1, current_size := p.2 }

/-- `http2_parse_headers_block_literal_incindex` from parser.rs: pattern
`01xxxxxx` (6-bit index prefix), literal field decode, then — only when
the decoded field's status is Success — the dynamic-table mutation. -/
def http2_parse_headers_block_literal_incindex (huff : List Nat → List Nat)
    (input : List Nat) (dyn_headers : HTTP2DynTable) :
    Option (List Nat × HTTP2FrameHeaderBlock × HTTP2DynTable) :=
  match input with
  | [] => none
  | b :: i2 =>
    if b / 64 = 1 then
      match http2_parse_var_uint i2 (b % 64) 0x3F with
      | none => none
      | some (i3, indexreal) =>
        if indexreal = 0 ∧ b % 64 = 0x3F then none
        else
          match http2_parse_headers_block_literal_common huff i3 indexreal dyn_headers with
          | none => none
          | some (r, head) =>
            if head.error = .Success then some (r, head, dynTableAdd dyn_headers head)
            else some (r, head, dyn_headers)
    else none

/-- `http2_parse_headers_block_literal_noindex` from parser.rs: pattern
`0000xxxx` (4-bit index prefix); never mutates the table. -/
def http2_parse_headers_block_literal_noindex (huff : List Nat → List Nat)
    (input : List Nat) (dyn_headers : HTTP2DynTable) :
    Option (List Nat × HTTP2FrameHeaderBlock) :=
  match input with
  | [] => none
  | b :: i2 =>
    if b / 16 = 0 then
      match http2_parse_var_uint i2 (b % 16) 0xF with
      | none => none
      | some (i3, indexreal) =>
        if indexreal = 0 ∧ b % 16 = 0xF then none
        else http2_parse_headers_block_literal_common huff i3 indexreal dyn_headers
    else none

/-- `http2_parse_headers_block_literal_neverindex` from parser.rs: pattern
`0001xxxx` (4-bit index prefix); never mutates the table. -/
def http2_parse_headers_block_literal_neverindex (huff : List Nat → List Nat)
    (input : List Nat) (dyn_headers : HTTP2DynTable) :
    Option (List Nat × HTTP2FrameHeaderBlock) :=
  match input with
  | [] => none
  | b :: i2 =>
    if b / 16 = 1 then
      match http2_parse_var_uint i2 (b % 16) 0xF with
      | none => none
      | some (i3, indexreal) =>
        if indexreal = 0 ∧ b % 16 = 0xF then none
        else http2_parse_headers_block_literal_common huff i3 indexreal dyn_headers
    else none

/-- `http2_parse_headers_block_indexed` from parser.rs: pattern `1xxxxxxx`
(7-bit index prefix), VarInt, then the static/dynamic lookup.  Takes the
table immutably: it never mutates it. -/
def http2_parse_headers_block_indexed (input : List Nat)
    (dyn_headers : HTTP2DynTable) :
    Option (List Nat × HTTP2FrameHeaderBlock) :=
  match input with
  | [] => none
  | b :: i2 =>
    if b / 128 = 1 then
      match http2_parse_var_uint i2 (b % 128) 0x7F with
      | none => none
      | some (i3, indexreal) =>
        if indexreal = 0 ∧ b % 128 = 0x7F then none
        else
          match http2_frame_header_static indexreal dyn_headers with
          | some h => some (i3, h)
          | none => none
    else none

/-- The eviction performed by `http2_parse_headers_block_dynamic_size`
(lines 567–580): when the decoded size is below the current `max_size`,
evict oldest-first down to it; `max_size` itself is not assigned. -/
def http2_dyn_size_evict (dyn : HTTP2DynTable) (maxsize2 : Nat) : HTTP2DynTable :=
  if maxsize2 < dyn.max_size then
    let p := evictFrom maxsize2 dyn.table dyn.current_size
    { dyn with table := p.1, current_size := p.2 }
  else dyn

/-- `http2_parse_headers_block_dynamic_size` from parser.rs: pattern
`001xxxxx` (5-bit prefix, max 31); overflow sentinel yields an
IntegerOverflow pseudo-field with no mutation, otherwise a SizeUpdate
pseudo-field carrying the decoded value after possible eviction. -/
def http2_parse_headers_block_dynamic_size (input : List Nat)
    (dyn_headers : HTTP2DynTable) :
    Option (List Nat × HTTP2FrameHeaderBlock × HTTP2DynTable) :=
  match input with
  | [] => none
  | b :: i2 =>
    if b / 32 = 1 then
      match http2_parse_var_uint i2 (b % 32) 0x1F with
      | none => none
      | some (i3, maxsize2) =>
        if maxsize2 = 0 ∧ b % 32 = 0x1F then
          some (i3, ⟨[], [], .IntegerOverflow, 0⟩, dyn_headers)
        else
          some (i3, ⟨[], [], .SizeUpdate, maxsize2⟩,
            http2_dyn_size_evict dyn_headers maxsize2)
    else none

/-- `http2_parse_headers_block` from parser.rs: dispatch on the top bits of
the first byte (the caller guarantees a non-empty input; `[]` gives
`none` here in place of the impossible `input[0]` access).  The variants
that take the table immutably return it unchanged. -/
def http2_parse_headers_block (huff : List Nat → List Nat)
    (input : List Nat) (dyn_headers : HTTP2DynTable) :
    Option (List Nat × HTTP2FrameHeaderBlock × HTTP2DynTable) :=
  match input with
  | [] => none
  | b :: _ =>
    if 128 ≤ b then
      (http2_parse_headers_block_indexed input dyn_headers).map
        (fun r => (r.1, r.2, dyn_headers))
    else if 64 ≤ b then
      http2_parse_headers_block_literal_incindex huff input dyn_headers
    else if 32 ≤ b then
      http2_parse_headers_block_dynamic_size input dyn_headers
    else if 16 ≤ b then
      (http2_parse_headers_block_literal_neverindex huff input dyn_headers).map
        (fun r => (r.1, r.2, dyn_headers))
    else
      (http2_parse_headers_block_literal_noindex huff input dyn_headers).map
        (fun r => (r.1, r.2, dyn_headers))

/-- `HTTP2FrameHeadersPriority` from parser.rs. -/
structure HTTP2FrameHeadersPriority where
  exclusive : Nat
  dependency : Nat
  weight : Nat
deriving DecidableEq

/-- `http2_parse_headers_priority` from parser.rs: 1 exclusive bit,
31-bit big-endian dependency, 1 weight byte. -/
def http2_parse_headers_priority (input : List Nat) :
    Option (List Nat × HTTP2FrameHeadersPriority) :=
  match input with
  | b0 :: b1 :: b2 :: b3 :: b4 :: rest =>
    some (rest, ⟨b0 / 128, (b0 % 128) * 2 ^ 24 + b1 * 2 ^ 16 + b2 * 2 ^ 8 + b3, b4⟩)
  | _ => none

/-- The header-block loop shared (inlined verbatim) by
`http2_parse_frame_headers`, `http2_parse_frame_push_promise` and
`http2_parse_frame_continuation` in parser.rs: repeatedly decode a field
from the remainder, aborting with an error when a call consumes no bytes.
`fuel` only bounds the recursion; the wrapper below supplies enough for
it never to run out (each iteration strictly shrinks the remainder). -/
def headersBlocksLoopF (huff : List Nat → List Nat) :
    Nat → List Nat → HTTP2DynTable →
    Option (List Nat × List HTTP2FrameHeaderBlock × HTTP2DynTable)
  | 0, _, _ => none
  | fuel + 1, i3, dyn_headers =>
    if i3.isEmpty then some (i3, [], dyn_headers)
    else
      match http2_parse_headers_block huff i3 dyn_headers with
      | none => none
      | some (rem, b, dyn2) =>
        if rem.length < i3.length then
          match headersBlocksLoopF huff fuel rem dyn2 with
          | none => none
          | some (r, bs, d) => some (r, b :: bs, d)
        else none

/-- The header-block loop of parser.rs with sufficient fuel. -/
def headersBlocksLoop (huff : List Nat → List Nat) (i3 : List Nat)
    (dyn_headers : HTTP2DynTable) :
    Option (List Nat × List HTTP2FrameHeaderBlock × HTTP2DynTable) :=
  headersBlocksLoopF huff (i3.length + 1) i3 dyn_headers

/-- `HTTP2FrameHeaders` from parser.rs. -/
structure HTTP2FrameHeaders where
  padlength : Option Nat
  priority : Option HTTP2FrameHeadersPriority
  blocks : List HTTP2FrameHeaderBlock
deriving DecidableEq

/-- Flag constants from parser.rs. -/
def HTTP2_FLAG_HEADER_PADDED : Nat := 0x8

/-- `HTTP2_FLAG_HEADER_PRIORITY` from parser.rs. -/
def HTTP2_FLAG_HEADER_PRIORITY : Nat := 0x20

/-- `http2_parse_frame_headers` from parser.rs: optional pad length,
optional priority, then the header-block loop over all remaining bytes. -/
def http2_parse_frame_headers (huff : List Nat → List Nat)
    (input : List Nat) (flags : Nat) (dyn_headers : HTTP2DynTable) :
    Option (List Nat × HTTP2FrameHeaders × HTTP2DynTable) :=
  let step1 : Option (List Nat × Option Nat) :=
    if flags &&& HTTP2_FLAG_HEADER_PADDED ≠ 0 then
      match input with
      | [] => none
      | p :: r => some (r, some p)
    else some (input, none)
  match step1 with
  | none => none
  | some (i2, padlength) =>
    let step2 : Option (List Nat × Option HTTP2FrameHeadersPriority) :=
      if flags &&& HTTP2_FLAG_HEADER_PRIORITY ≠ 0 then
        match http2_parse_headers_priority i2 with
        | none => none
        | some (r, pr) => some (r, some pr)
      else some (i2, none)
    match step2 with
    | none => none
    | some (i3, priority) =>
      match headersBlocksLoop huff i3 dyn_headers with
      | none => none
      | some (r, blocks, d) => some (r, ⟨padlength, priority, blocks⟩, d)

/-- `HTTP2FramePushPromise` from parser.rs. -/
structure HTTP2FramePushPromise where
  padlength : Option Nat
  reserved : Nat
  stream_id : Nat
  blocks : List HTTP2FrameHeaderBlock
deriving DecidableEq

/-- `http2_parse_frame_push_promise` from parser.rs: optional pad length,
reserved bit + 31-bit promised stream id, then the header-block loop. -/
def http2_parse_frame_push_promise (huff : List Nat → List Nat)
    (input : List Nat) (flags : Nat) (dyn_headers : HTTP2DynTable) :
    Option (List Nat × HTTP2FramePushPromise × HTTP2DynTable) :=
  let step1 : Option (List Nat × Option Nat) :=
    if flags &&& HTTP2_FLAG_HEADER_PADDED ≠ 0 then
      match input with
      | [] => none
      | p :: r => some (r, some p)
    else some (input, none)
  match step1 with
  | none => none
  | some (i2, padlength) =>
    match i2 with
    | b0 :: b1 :: b2 :: b3 :: i3 =>
      match headersBlocksLoop huff i3 dyn_headers with
      | none => none
      | some (r, blocks, d) =>
        some (r, ⟨padlength, b0 / 128,
          (b0 % 128) * 2 ^ 24 + b1 * 2 ^ 16 + b2 * 2 ^ 8 + b3, blocks⟩, d)
    | _ => none

/-- `HTTP2FrameContinuation` from parser.rs. -/
structure HTTP2FrameContinuation where
  blocks : List HTTP2FrameHeaderBlock
deriving DecidableEq

/-- `http2_parse_frame_continuation` from parser.rs: the header-block loop
over the entire payload. -/
def http2_parse_frame_continuation (huff : List Nat → List Nat)
    (input : List Nat) (dyn_headers : HTTP2DynTable) :
    Option (List Nat × HTTP2FrameContinuation × HTTP2DynTable) :=
  (headersBlocksLoop huff input dyn_headers).map (fun x => (x.1, ⟨x.2.1⟩, x.2.2))

/-- `HTTP2FrameSettings` from parser.rs: one (id, value) pair.  `id` is
the numeric value of the `HTTP2SettingsId` enum (1–6). -/
structure HTTP2FrameSettings where
  id : Nat
  value : Nat
deriving DecidableEq

/-- `http2_parse_frame_setting` from parser.rs: a big-endian 16-bit id
(mapped through `FromPrimitive`, which accepts exactly 1–6) and a
big-endian 32-bit value. -/
def http2_parse_frame_setting (input : List Nat) :
    Option (List Nat × HTTP2FrameSettings) :=
  match input with
  | a :: b :: c :: d :: e :: f :: rest =>
    let id := a * 256 + b
    if 1 ≤ id ∧ id ≤ 6 then
      some (rest, ⟨id, ((c * 256 + d) * 256 + e) * 256 + f⟩)
    else none
  | _ => none

/-- `http2_parse_frame_settings` from parser.rs:
`many0!(complete!(http2_parse_frame_setting))` — parse pairs while they
succeed, then stop, returning the parsed prefix and the remaining bytes.
`many0` never fails, so the result is not an `Option`. -/
def http2_parse_frame_settings : List Nat →
    List Nat × List HTTP2FrameSettings
  | a :: b :: c :: d :: e :: f :: rest =>
    let id := a * 256 + b
    if 1 ≤ id ∧ id ≤ 6 then
      let p := http2_parse_frame_settings rest
      (p.1, ⟨id, ((c * 256 + d) * 256 + e) * 256 + f⟩ :: p.2)
    else (a :: b :: c :: d :: e :: f :: rest, [])
  | l => (l, [])

/-- Big-endian wire encoding of one Settings pair, for stating the
Settings round-trip property. -/
def encodePair (id v : Nat) : List Nat :=
  [id / 256, id % 256, v / 2 ^ 24 % 256, v / 2 ^ 16 % 256, v / 2 ^ 8 % 256, v % 256]

/-- Wire encoding of a list of Settings pairs. -/
def encodeSettings : List (Nat × Nat) → List Nat
  | [] => []
  | p :: rest => encodePair p.1 p.2 ++ encodeSettings rest

/-- Dynamic-table states reachable through the decoders of parser.rs plus
the two collaborator actions the spec grants the session layer (assigning
`max_size` after a SizeUpdate, and marking the overflow state): starting
from a fresh table, any interleaving of field insertions
(`dynTableAdd`), size-update evictions (`http2_dyn_size_evict`),
`max_size` assignments, and overflow marks. -/
inductive Reach : HTTP2DynTable → Prop
  | init (m : Nat) : Reach ⟨[], 0, m, 0⟩
  | insert (d : HTTP2DynTable) (h : HTTP2FrameHeaderBlock) :
      Reach d → Reach (dynTableAdd d h)
  | sizeupd (d : HTTP2DynTable) (m : Nat) :
      Reach d → Reach (http2_dyn_size_evict d m)
  | setmax (d : HTTP2DynTable) (m : Nat) :
      Reach d → Reach { d with max_size := m }
  | setover (d : HTTP2DynTable) (o : Nat) :
      Reach d → Reach { d with overflow := o }

/-! ### Helper lemmas -/

lemma takeWhile_append_of (p : Nat → Bool) :
    ∀ (l : List Nat) (f : Nat) (rest : List Nat),
      (∀ b ∈ l, p b = true) → p f = false →
      (l ++ f :: rest).takeWhile p = l ∧ (l ++ f :: rest).dropWhile p = f :: rest
  | [], f, rest, _, hf => by
      simp [List.takeWhile_cons, List.dropWhile_cons, hf]
  | b :: l, f, rest, hl, hf => by
      have hb : p b = true := hl b (by simp)
      have ih := takeWhile_append_of p l f rest (fun x hx => hl x (by simp [hx])) hf
      simp [List.takeWhile_cons, List.dropWhile_cons, hb, ih.1, ih.2]

lemma varSum_bound : ∀ (l : List Nat) (i : Nat),
    varSum l i + 2 ^ (7 * i) ≤ 2 ^ (7 * (l.length + i))
  | [], i => by simp [varSum]
  | b :: l, i => by
      have hb : b % 128 ≤ 127 := by omega
      have h1 : (b % 128) * 2 ^ (7 * i) ≤ 127 * 2 ^ (7 * i) :=
        Nat.mul_le_mul_right _ hb
      have h2 : varSum l (i + 1) + 2 ^ (7 * (i + 1)) ≤ 2 ^ (7 * (l.length + (i + 1))) :=
        varSum_bound l (i + 1)
      have h3 : 127 * 2 ^ (7 * i) + 2 ^ (7 * i) = 2 ^ (7 * (i + 1)) := by
        rw [Nat.mul_succ, Nat.pow_add]
        ring
      have h4 : 7 * (l.length + (i + 1)) = 7 * ((b :: l).length + i) := by
        simp [List.length_cons]
        ring
      simp only [varSum]
      calc (b % 128) * 2 ^ (7 * i) + varSum l (i + 1) + 2 ^ (7 * i)
          ≤ 127 * 2 ^ (7 * i) + varSum l (i + 1) + 2 ^ (7 * i) := by omega
        _ = varSum l (i + 1) + (127 * 2 ^ (7 * i) + 2 ^ (7 * i)) := by omega
        _ = varSum l (i + 1) + 2 ^ (7 * (i + 1)) := by rw [h3]
        _ ≤ 2 ^ (7 * (l.length + (i + 1))) := h2
        _ = 2 ^ (7 * ((b :: l).length + i)) := by rw [h4]

lemma varSum_lt_of_len_le (l : List Nat) (h : l.length ≤ 9) :
    varSum l 0 < 2 ^ 63 := by
  have h1 := varSum_bound l 0
  have h2 : (2 : Nat) ^ (7 * (l.length + 0)) ≤ 2 ^ 63 :=
    Nat.pow_le_pow_right (by norm_num) (by omega)
  omega

/-- Branch form of `http2_parse_var_uint` on an input decomposed into
continuation bytes, final byte, and trailing bytes. -/
lemma var_uint_eq (v m : Nat) (varia : List Nat) (f : Nat) (rest : List Nat)
    (hv : m ≤ v) (hvaria : ∀ b ∈ varia, 128 ≤ b) (hf : f < 128) :
    http2_parse_var_uint (varia ++ f :: rest) v m =
      if 9 < varia.length ∨ (varia.length = 9 ∧ 1 < f) then some (rest, 0)
      else
        if 2 ^ 64 - 1 - (m + varSum varia 0) % 2 ^ 64 < f * 2 ^ (7 * varia.length) then
          some (rest, 0)
        else some (rest, (m + varSum varia 0) % 2 ^ 64 + f * 2 ^ (7 * varia.length)) := by
  have hp : ∀ b ∈ varia, (fun ch => decide (128 ≤ ch)) b = true := by
    intro b hb
    simpa using hvaria b hb
  have hpf : (fun ch => decide (128 ≤ ch)) f = false := by
    simp
    omega
  obtain ⟨ht, hd⟩ := takeWhile_append_of _ varia f rest hp hpf
  simp only [http2_parse_var_uint, if_neg (not_lt.mpr hv), ht, hd]

/-- C1: the VarInt decoder returns exactly `v` with no bytes consumed when
`v < m`; otherwise it consumes the continuation bytes (high bit set) plus
one terminating byte and returns `m + Σ (byte & 0x7f) << 7i` plus the
final shifted term, except that more than 9 continuation bytes or a
64-bit overflow of the accumulation yield the sentinel 0, with the bytes
still consumed.  (`m ≤ 127` since an HPACK prefix has at most 7 bits.) -/
theorem C1_var_uint_contract (v m : Nat) (varia : List Nat) (f : Nat)
    (rest input : List Nat) (hm : m ≤ 127)
    (hvaria : ∀ b ∈ varia, 128 ≤ b) (hf : f < 128) :
    (v < m → http2_parse_var_uint input v m = some (input, v)) ∧
    (m ≤ v →
      ((9 < varia.length ∨ 2 ^ 64 ≤ m + varSum varia 0 + f * 2 ^ (7 * varia.length)) →
        http2_parse_var_uint (varia ++ f :: rest) v m = some (rest, 0)) ∧
      (varia.length ≤ 9 →
        m + varSum varia 0 + f * 2 ^ (7 * varia.length) < 2 ^ 64 →
        http2_parse_var_uint (varia ++ f :: rest) v m =
          some (rest, m + varSum varia 0 + f * 2 ^ (7 * varia.length)))) := by
  constructor
  · intro hv
    simp [http2_parse_var_uint, hv]
  · intro hv
    rw [var_uint_eq v m varia f rest hv hvaria hf]
    constructor
    · rintro (h9 | hov)
      · rw [if_pos (Or.inl h9)]
      · by_cases h9 : 9 < varia.length
        · rw [if_pos (Or.inl h9)]
        · push_neg at h9
          have hs : varSum varia 0 < 2 ^ 63 := varSum_lt_of_len_le varia h9
          have hmod : (m + varSum varia 0) % 2 ^ 64 = m + varSum varia 0 :=
            Nat.mod_eq_of_lt (by norm_num at hs ⊢; omega)
          by_cases hL : varia.length = 9 ∧ 1 < f
          · rw [if_pos (Or.inr hL)]
          · rw [if_neg (by push_neg at hL ⊢; exact ⟨by omega, hL⟩), hmod,
                if_pos (by norm_num at hs hov ⊢; omega)]
    · intro h9 hlt
      have hs : varSum varia 0 < 2 ^ 63 := varSum_lt_of_len_le varia h9
      have hmod : (m + varSum varia 0) % 2 ^ 64 = m + varSum varia 0 :=
        Nat.mod_eq_of_lt (by norm_num at hs ⊢; omega)
      have hguard : ¬(9 < varia.length ∨ (varia.length = 9 ∧ 1 < f)) := by
        rintro (h | ⟨h9', hf2⟩)
        · omega
        · rw [h9'] at hlt
          have : (2 : Nat) ^ (7 * 9) = 9223372036854775808 := by norm_num
          rw [this] at hlt
          norm_num at hlt
          omega
      rw [if_neg hguard, hmod, if_neg (by omega)]

/-- Witness for C1 at a concrete input: prefix value 127 with maximum 127,
one continuation byte `0x85`, final byte 3. -/
theorem C1_var_uint_contract_witness :
    http2_parse_var_uint [133, 3] 127 127 =
      some ([], 127 + varSum [133] 0 + 3 * 2 ^ (7 * 1)) :=
  ((C1_var_uint_contract 127 127 [133] 3 [] [] (by decide)
      (by decide) (by decide)).2 (le_refl 127)).2 (by decide) (by decide)

lemma tableSize_append_single (l : List HTTP2FrameHeaderBlock)
    (h : HTTP2FrameHeaderBlock) :
    tableSize (l ++ [h]) = tableSize l + entryCost h := by
  induction l with
  | nil => simp [tableSize]
  | cons e rest ih => simp [tableSize, ih]; omega

lemma tableSize_take_drop (l : List HTTP2FrameHeaderBlock) (k : Nat) :
    tableSize (l.take k) + tableSize (l.drop k) = tableSize l := by
  induction l generalizing k with
  | nil => simp [tableSize]
  | cons e rest ih =>
    cases k with
    | zero => simp [tableSize]
    | succ k => simp [tableSize, ← ih k]; omega

/-- The eviction loop removes exactly a prefix (the `drain(0..toremove)`),
subtracting each evicted entry's cost; every entry of that prefix was
evicted while `current_size` still exceeded the bound; afterwards either
the size is within the bound or the table has been emptied. -/
lemma evictFrom_spec (bound : Nat) :
    ∀ (tbl : List HTTP2FrameHeaderBlock) (cur : Nat),
      ∃ k, k ≤ tbl.length ∧
        evictFrom bound tbl cur = (tbl.drop k, cur - tableSize (tbl.take k)) ∧
        (∀ j, j < k → bound < cur - tableSize (tbl.take j)) ∧
        (cur - tableSize (tbl.take k) ≤ bound ∨ k = tbl.length)
  | [], cur => by
      refine ⟨0, by simp, by simp [evictFrom, tableSize], by omega, by simp⟩
  | e :: rest, cur => by
      by_cases hb : bound < cur
      · obtain ⟨k, hk, heq, hj, hend⟩ := evictFrom_spec bound rest (cur - entryCost e)
        refine ⟨k + 1, by simp; omega, ?_, ?_, ?_⟩
        · simp only [evictFrom, if_pos hb, heq, List.drop_succ_cons, List.take_succ_cons,
            tableSize]
          congr 1
          omega
        · intro j hjk
          cases j with
          | zero => simpa [tableSize] using hb
          | succ j =>
            have := hj j (by omega)
            simp only [List.take_succ_cons, tableSize]
            omega
        · rcases hend with h | h
          · left
            simp only [List.take_succ_cons, tableSize]
            omega
          · right
            simp [h]
      · refine ⟨0, by simp, by simp [evictFrom, if_neg hb, tableSize], by omega, by omega⟩

/-- When `current_size` dominates the total entry cost, no subtraction of
the eviction loop underflows. -/
lemma evictSafe_of_le (bound : Nat) :
    ∀ (tbl : List HTTP2FrameHeaderBlock) (cur : Nat),
      tableSize tbl ≤ cur → evictSafe bound tbl cur
  | [], cur, _ => by simp [evictSafe]
  | e :: rest, cur, hle => by
      simp only [evictSafe]
      split
      · exact ⟨by simp [tableSize] at hle; omega,
          evictSafe_of_le bound rest (cur - entryCost e)
            (by simp [tableSize] at hle; omega)⟩
      · trivial

/-- The eviction loop preserves the size invariant. -/
lemma evictFrom_inv (bound : Nat) (tbl : List HTTP2FrameHeaderBlock) (cur : Nat)
    (hle : tableSize tbl ≤ cur) :
    tableSize (evictFrom bound tbl cur).1 ≤ (evictFrom bound tbl cur).2 := by
  obtain ⟨k, _, heq, _, _⟩ := evictFrom_spec bound tbl cur
  rw [heq]
  have := tableSize_take_drop tbl k
  simp only
  omega

/-- Case analysis of the storage decision: `current_size` always grows by
the entry's cost; the table either gains the entry at the tail or is
unchanged; `max_size` is never modified. -/
lemma dynTableStore_cases (dyn : HTTP2DynTable) (h : HTTP2FrameHeaderBlock) :
    (dynTableStore dyn h).current_size = dyn.current_size + entryCost h ∧
    (dynTableStore dyn h).max_size = dyn.max_size ∧
    ((dynTableStore dyn h).table = dyn.table ++ [h] ∨
      (dynTableStore dyn h).table = dyn.table) := by
  simp only [dynTableStore]
  split
  · split
    · split
      · exact ⟨rfl, rfl, Or.inl rfl⟩
      · split
        · exact ⟨rfl, rfl, Or.inr rfl⟩
        · exact ⟨rfl, rfl, Or.inr rfl⟩
    · exact ⟨rfl, rfl, Or.inr rfl⟩
  · exact ⟨rfl, rfl, Or.inl rfl⟩

/-- Field insertion preserves the size invariant. -/
lemma dynTableAdd_inv (dyn : HTTP2DynTable) (h : HTTP2FrameHeaderBlock)
    (hle : tableSize dyn.table ≤ dyn.current_size) :
    tableSize (dynTableAdd dyn h).table ≤ (dynTableAdd dyn h).current_size := by
  obtain ⟨hc, _, ht⟩ := dynTableStore_cases dyn h
  have hstore : tableSize (dynTableStore dyn h).table ≤ (dynTableStore dyn h).current_size := by
    rcases ht with ht | ht <;> rw [ht, hc]
    · rw [tableSize_append_single]
      omega
    · omega
  simpa [dynTableAdd] using
    evictFrom_inv (dynTableStore dyn h).max_size _ _ hstore

/-- Size-update eviction preserves the size invariant. -/
lemma dyn_size_evict_inv (dyn : HTTP2DynTable) (m : Nat)
    (hle : tableSize dyn.table ≤ dyn.current_size) :
    tableSize (http2_dyn_size_evict dyn m).table ≤
      (http2_dyn_size_evict dyn m).current_size := by
  simp only [http2_dyn_size_evict]
  split
  · simpa using evictFrom_inv m dyn.table dyn.current_size hle
  · exact hle

/-- Every reachable table state satisfies the size invariant. -/
lemma reach_inv (d : HTTP2DynTable) (hd : Reach d) :
    tableSize d.table ≤ d.current_size := by
  induction hd with
  | init m => simp [tableSize]
  | insert d h _ ih => exact dynTableAdd_inv d h ih
  | sizeupd d m _ ih => exact dyn_size_evict_inv d m ih
  | setmax d m _ ih => exact ih
  | setover d o _ ih => exact ih

/-- C10: in every dynamic-table state reachable through the decoders,
`current_size` bounds the summed entry costs `32 + len(name) + len(value)`;
the invariant is preserved by field insertion (`dynTableAdd`) and by
size-update eviction (`http2_dyn_size_evict`); consequently neither
eviction loop's `current_size` subtraction ever underflows. -/
theorem C10_size_invariant (d : HTTP2DynTable) (hd : Reach d) :
    tableSize d.table ≤ d.current_size ∧
    (∀ h, tableSize (dynTableAdd d h).table ≤ (dynTableAdd d h).current_size) ∧
    (∀ m, tableSize (http2_dyn_size_evict d m).table ≤
      (http2_dyn_size_evict d m).current_size) ∧
    (∀ bound, evictSafe bound d.table d.current_size) := by
  have hinv := reach_inv d hd
  exact ⟨hinv, fun h => dynTableAdd_inv d h hinv,
    fun m => dyn_size_evict_inv d m hinv,
    fun bound => evictSafe_of_le bound d.table d.current_size hinv⟩

/-- Witness for C10 at the freshly created table (with `max_size` 4096). -/
theorem C10_size_invariant_witness :
    tableSize (⟨[], 0, 4096, 0⟩ : HTTP2DynTable).table ≤
      (⟨[], 0, 4096, 0⟩ : HTTP2DynTable).current_size :=
  (C10_size_invariant ⟨[], 0, 4096, 0⟩ (Reach.init 4096)).1

lemma dynTableStore_clean (dyn : HTTP2DynTable) (h : HTTP2FrameHeaderBlock)
    (h0 : dyn.overflow = 0) :
    dynTableStore dyn h =
      { dyn with current_size := dyn.current_size + entryCost h,
                 table := dyn.table ++ [h] } := by
  simp only [dynTableStore]
  rw [if_neg (by simp [h0])]

/-- One Clean insertion: stays Clean, stays exact, ends within `max_size`. -/
lemma dynTableAdd_clean_step (dyn : HTTP2DynTable) (h : HTTP2FrameHeaderBlock)
    (h0 : dyn.overflow = 0) (hexact : dyn.current_size = tableSize dyn.table) :
    (dynTableAdd dyn h).overflow = 0 ∧
    (dynTableAdd dyn h).max_size = dyn.max_size ∧
    (dynTableAdd dyn h).current_size = tableSize (dynTableAdd dyn h).table ∧
    (dynTableAdd dyn h).current_size ≤ dyn.max_size := by
  have hstore := dynTableStore_clean dyn h h0
  obtain ⟨k, hk, heq, _, hend⟩ :=
    evictFrom_spec (dynTableStore dyn h).max_size (dynTableStore dyn h).table
      (dynTableStore dyn h).current_size
  have htot : (dynTableStore dyn h).current_size =
      tableSize (dynTableStore dyn h).table := by
    rw [hstore]
    simp [tableSize_append_single, hexact]
  have hsplit := tableSize_take_drop (dynTableStore dyn h).table k
  have hmax : (dynTableStore dyn h).max_size = dyn.max_size := by
    rw [hstore]
  have hover : (dynTableStore dyn h).overflow = 0 := by
    rw [hstore]
    exact h0
  have hadd : dynTableAdd dyn h =
      { dynTableStore dyn h with
          table := ((dynTableStore dyn h).table.drop k),
          current_size :=
            (dynTableStore dyn h).current_size -
              tableSize ((dynTableStore dyn h).table.take k) } := by
    simp only [dynTableAdd, heq]
  refine ⟨by rw [hadd]; exact hover, by rw [hadd]; exact hmax, ?_, ?_⟩
  · rw [hadd]
    simp only
    omega
  · rw [hadd]
    simp only
    rcases hend with hle | hall
    · omega
    · have : tableSize ((dynTableStore dyn h).table.take k) =
          tableSize (dynTableStore dyn h).table := by
        rw [hall, List.take_length]
      omega

/-- C2: the storage decision of a successfully decoded
literal-with-incremental-indexing field follows the overflow state:
Clean always appends; Pending appends exactly when the increased
`current_size` stays within `HTTP2_MAX_TABLESIZE` and otherwise flips to
Overflowed; Overflowed never appends.  (`max_size` is bounded by the
protocol ceiling, per the spec's definition of the dynamic table.) -/
theorem C2_storage_decision (dyn : HTTP2DynTable) (h : HTTP2FrameHeaderBlock)
    (hceil : dyn.max_size ≤ HTTP2_MAX_TABLESIZE) :
    (dyn.overflow = 0 → dynTableStore dyn h =
      { dyn with current_size := dyn.current_size + entryCost h,
                 table := dyn.table ++ [h] }) ∧
    (dyn.overflow = 1 → dyn.current_size + entryCost h ≤ HTTP2_MAX_TABLESIZE →
      dynTableStore dyn h =
        { dyn with current_size := dyn.current_size + entryCost h,
                   table := dyn.table ++ [h] }) ∧
    (dyn.overflow = 1 → HTTP2_MAX_TABLESIZE < dyn.current_size + entryCost h →
      dynTableStore dyn h =
        { dyn with current_size := dyn.current_size + entryCost h,
                   overflow := 2 }) ∧
    (dyn.overflow = 2 → dynTableStore dyn h =
      { dyn with current_size := dyn.current_size + entryCost h }) ∧
    (∀ huff input r blk d',
      http2_parse_headers_block_literal_incindex huff input dyn = some (r, blk, d') →
      blk.error = .Success → d' = dynTableAdd dyn blk) := by
  refine ⟨fun h0 => dynTableStore_clean dyn h h0, ?_, ?_, ?_, ?_⟩
  · intro h1 hle
    simp only [dynTableStore]
    rw [if_pos (by simp [h1]), if_pos (by simp [h1]), if_pos hle]
  · intro h1 hgt
    simp only [dynTableStore]
    rw [if_pos (by simp [h1]), if_pos (by simp [h1]), if_neg (by omega),
        if_pos (show dyn.max_size < dyn.current_size + entryCost h by omega)]
  · intro h2
    simp only [dynTableStore]
    rw [if_pos (by simp [h2]), if_neg (by simp [h2])]
  · intro huff input r blk d' hp hs
    rcases input with _ | ⟨b, i2⟩
    · simp [http2_parse_headers_block_literal_incindex] at hp
    · simp only [http2_parse_headers_block_literal_incindex] at hp
      split at hp
      · split at hp
        · exact Option.noConfusion hp
        · split at hp
          · exact Option.noConfusion hp
          · split at hp
            · exact Option.noConfusion hp
            · split at hp
              · simp only [Option.some_inj, Prod.mk.injEq] at hp
                obtain ⟨-, hblk, hd'⟩ := hp
                rw [← hd', ← hblk]
              · rename_i head hne
                simp only [Option.some_inj, Prod.mk.injEq] at hp
                obtain ⟨-, hblk, -⟩ := hp
                rw [← hblk] at hs
                exact absurd hs hne
      · exact Option.noConfusion hp

/-- Witness for C2 at a concrete Pending table. -/
theorem C2_storage_decision_witness :
    dynTableStore ⟨[], 40, 4096, 1⟩ ⟨[97], [98], .Success, 0⟩ =
      { (⟨[], 40, 4096, 1⟩ : HTTP2DynTable) with
          current_size := 40 + entryCost ⟨[97], [98], .Success, 0⟩,
          table := [] ++ [⟨[97], [98], .Success, 0⟩] } :=
  (C2_storage_decision ⟨[], 40, 4096, 1⟩ ⟨[97], [98], .Success, 0⟩
    (by decide)).2.1 (by decide) (by decide)

/-- C4: after a successful literal-with-incremental-indexing insertion,
eviction removes exactly an oldest-first prefix of the stored table,
subtracting each evicted entry's cost from `current_size` while it
exceeds `max_size` and entries remain; from a Clean, size-exact table any
insertion sequence leaves `current_size ≤ max_size`, the result being a
function of the insertion sequence (and the unchanged `max_size`). -/
theorem C4_insert_evicts (dyn : HTTP2DynTable) (h : HTTP2FrameHeaderBlock) :
    (∃ k, k ≤ (dynTableStore dyn h).table.length ∧
      (dynTableAdd dyn h).table = (dynTableStore dyn h).table.drop k ∧
      (dynTableAdd dyn h).current_size =
        (dynTableStore dyn h).current_size -
          tableSize ((dynTableStore dyn h).table.take k) ∧
      (∀ j, j < k → dyn.max_size <
        (dynTableStore dyn h).current_size -
          tableSize ((dynTableStore dyn h).table.take j)) ∧
      ((dynTableAdd dyn h).current_size ≤ dyn.max_size ∨
        k = (dynTableStore dyn h).table.length)) ∧
    (∀ entries : List HTTP2FrameHeaderBlock,
      dyn.overflow = 0 → dyn.current_size = tableSize dyn.table →
      dyn.current_size ≤ dyn.max_size →
      (entries.foldl dynTableAdd dyn).current_size ≤
        (entries.foldl dynTableAdd dyn).max_size ∧
      (entries.foldl dynTableAdd dyn).current_size =
        tableSize (entries.foldl dynTableAdd dyn).table ∧
      (entries.foldl dynTableAdd dyn).overflow = 0 ∧
      (entries.foldl dynTableAdd dyn).max_size = dyn.max_size) := by
  constructor
  · obtain ⟨k, hk, heq, hj, hend⟩ :=
      evictFrom_spec (dynTableStore dyn h).max_size (dynTableStore dyn h).table
        (dynTableStore dyn h).current_size
    have hmax : (dynTableStore dyn h).max_size = dyn.max_size :=
      (dynTableStore_cases dyn h).2.1
    rw [hmax] at hj hend
    exact ⟨k, hk, by simp only [dynTableAdd, heq], by simp only [dynTableAdd, heq],
      hj, by simpa only [dynTableAdd, heq] using hend⟩
  · intro entries
    induction entries generalizing dyn with
    | nil =>
      intro h0 hexact hle
      exact ⟨hle, hexact, h0, rfl⟩
    | cons e rest ih =>
      intro h0 hexact hle
      obtain ⟨s0, smax, sexact, sle⟩ := dynTableAdd_clean_step dyn e h0 hexact
      have := ih (dynTableAdd dyn e) s0 sexact (by omega)
      simpa [List.foldl_cons, smax] using this

/-- Witness for C4: inserting one oversized entry into a fresh table with
`max_size` 10 evicts it again, leaving size 0. -/
theorem C4_insert_evicts_witness :
    (([⟨[97], [98], .Success, 0⟩] : List HTTP2FrameHeaderBlock).foldl dynTableAdd
        ⟨[], 0, 10, 0⟩).current_size ≤
      (([⟨[97], [98], .Success, 0⟩] : List HTTP2FrameHeaderBlock).foldl dynTableAdd
        ⟨[], 0, 10, 0⟩).max_size :=
  ((C4_insert_evicts ⟨[], 0, 10, 0⟩ ⟨[], [], .Success, 0⟩).2
    [⟨[97], [98], .Success, 0⟩] (by decide) (by decide) (by decide)).1

lemma static_nonempty_aux :
    ∀ n, n < 62 → 1 ≤ n → 0 < (http2_static_table n).1.length := by
  decide

lemma static_default (n : Nat) (h : 61 < n) : http2_static_table n = ("", "") := by
  simp only [http2_static_table]
  rw [if_neg (by omega)]

lemma static_entry (n : Nat) (dyn : HTTP2DynTable) (h1 : 1 ≤ n) (h61 : n ≤ 61) :
    http2_frame_header_static n dyn =
      some ⟨strBytes (http2_static_table n).1, strBytes (http2_static_table n).2,
        .Success, 0⟩ := by
  have hne : 0 < (http2_static_table n).1.length :=
    static_nonempty_aux n (by omega) h1
  simp only [http2_frame_header_static]
  rw [if_pos hne]

lemma static_zero (dyn : HTTP2DynTable) :
    http2_frame_header_static 0 dyn = some ⟨[], [], .Index0, 0⟩ := by
  simp [http2_frame_header_static, http2_static_table]

lemma static_out_of_range (n : Nat) (dyn : HTTP2DynTable)
    (h : dyn.table.length + 61 < n) :
    http2_frame_header_static n dyn = some ⟨[], [], .NotIndexed, 0⟩ := by
  have hd : http2_static_table n = ("", "") := static_default n (by omega)
  simp only [http2_frame_header_static, hd, HTTP2_STATIC_HEADERS_NUMBER]
  rw [if_neg (by simp), if_neg (by omega), if_pos h]

lemma static_dyn_entry (n : Nat) (dyn : HTTP2DynTable)
    (h62 : 61 < n) (hle : n ≤ 61 + dyn.table.length) :
    ∃ e, dyn.table[dyn.table.length - (n - 61)]? = some e ∧
      http2_frame_header_static n dyn = some ⟨e.name, e.value, .Success, 0⟩ := by
  have hd : http2_static_table n = ("", "") := static_default n h62
  have hidx : dyn.table.length - (n - 61) < dyn.table.length := by omega
  have hget := List.getElem?_eq_getElem hidx
  refine ⟨dyn.table[dyn.table.length - (n - 61)], hget, ?_⟩
  simp only [http2_frame_header_static, hd, HTTP2_STATIC_HEADERS_NUMBER]
  rw [if_neg (by simp), if_neg (by omega), if_neg (by omega), hget]

lemma static_isSome (n : Nat) (dyn : HTTP2DynTable) :
    ∃ x, http2_frame_header_static n dyn = some x := by
  rcases Nat.eq_zero_or_pos n with h0 | h1
  · exact ⟨_, h0 ▸ static_zero dyn⟩
  · rcases le_or_lt n 61 with h61 | h62
    · exact ⟨_, static_entry n dyn h1 h61⟩
    · rcases le_or_lt n (61 + dyn.table.length) with hle | hgt
      · obtain ⟨e, _, he⟩ := static_dyn_entry n dyn h62 hle
        exact ⟨_, he⟩
      · exact ⟨_, static_out_of_range n dyn (by omega)⟩

/-- C5: Indexed Header Field decode — index 0 gives `Index0` with empty
name/value and no table mutation; 1–61 copies the static entry; `n > 61`
resolves to dynamic position `table.len - (n - 61)`; an index beyond both
ranges gives a `NotIndexed` field rather than a parse error. -/
theorem C5_indexed_lookup (n : Nat) (dyn : HTTP2DynTable) :
    (http2_frame_header_static 0 dyn = some ⟨[], [], .Index0, 0⟩) ∧
    (1 ≤ n → n ≤ 61 → http2_frame_header_static n dyn =
      some ⟨strBytes (http2_static_table n).1, strBytes (http2_static_table n).2,
        .Success, 0⟩) ∧
    (61 < n → n ≤ 61 + dyn.table.length →
      ∃ e, dyn.table[dyn.table.length - (n - 61)]? = some e ∧
        http2_frame_header_static n dyn = some ⟨e.name, e.value, .Success, 0⟩) ∧
    (dyn.table.length + 61 < n →
      http2_frame_header_static n dyn = some ⟨[], [], .NotIndexed, 0⟩) ∧
    (∀ b i2 i3 m, 128 ≤ b → b < 256 →
      http2_parse_var_uint i2 (b % 128) 0x7F = some (i3, m) →
      ¬(m = 0 ∧ b % 128 = 0x7F) →
      http2_parse_headers_block_indexed (b :: i2) dyn =
        (http2_frame_header_static m dyn).map (fun h => (i3, h))) ∧
    (∀ huff b i2 r, 128 ≤ b →
      http2_parse_headers_block huff (b :: i2) dyn = some r → r.2.2 = dyn) := by
  refine ⟨static_zero dyn, static_entry n dyn, static_dyn_entry n dyn,
    static_out_of_range n dyn, ?_, ?_⟩
  · intro b i2 i3 m hb hb' hvar hne
    obtain ⟨x, hx⟩ := static_isSome m dyn
    simp only [http2_parse_headers_block_indexed,
      if_pos (show b / 128 = 1 by omega), hvar, if_neg hne, hx, Option.map_some']
  · intro huff b i2 r hb hp
    simp only [http2_parse_headers_block, if_pos hb] at hp
    rcases hq : http2_parse_headers_block_indexed (b :: i2) dyn with _ | q <;>
      rw [hq] at hp
    · exact Option.noConfusion hp
    · simp only [Option.map_some', Option.some_inj] at hp
      rw [← hp]

/-- Witness for C5 at index 64 over a one-entry table: the dynamic
position is `1 - (64 - 61)` (out of range), so the lookup degrades to a
NotIndexed field. -/
theorem C5_indexed_lookup_witness :
    http2_frame_header_static 64
        ⟨[⟨[97], [98], .Success, 0⟩], 34, 4096, 0⟩ =
      some ⟨[], [], .NotIndexed, 0⟩ :=
  (C5_indexed_lookup 64 ⟨[⟨[97], [98], .Success, 0⟩], 34, 4096, 0⟩).2.2.2.1
    (by decide)

/-- C6: every static index 1–61, sent as the single byte `0x80 + n`,
decodes to the fixed static-table pair with Success status and empty
remainder; in particular `[0x82]` gives (:method, GET). -/
theorem C6_static_decode (n : Nat) (dyn : HTTP2DynTable)
    (h1 : 1 ≤ n) (h61 : n ≤ 61) :
    http2_parse_headers_block_indexed [128 + n] dyn =
      some ([], ⟨strBytes (http2_static_table n).1,
        strBytes (http2_static_table n).2, .Success, 0⟩) ∧
    http2_parse_headers_block_indexed [0x82] dyn =
      some ([], ⟨strBytes ":method", strBytes "GET", .Success, 0⟩) := by
  constructor
  · simp only [http2_parse_headers_block_indexed,
      if_pos (show (128 + n) / 128 = 1 by omega),
      show (128 + n) % 128 = n by omega,
      show http2_parse_var_uint [] n 0x7F = some ([], n) from by
        simp only [http2_parse_var_uint]
        rw [if_pos (by omega)],
      if_neg (show ¬(n = 0 ∧ n = 127) by omega),
      static_entry n dyn h1 h61]
  · simp only [http2_parse_headers_block_indexed,
      if_pos (show (0x82 : Nat) / 128 = 1 by norm_num),
      show (0x82 : Nat) % 128 = 2 by norm_num,
      show http2_parse_var_uint [] 2 0x7F = some ([], 2) from by
        simp only [http2_parse_var_uint]
        rw [if_pos (by omega)],
      if_neg (show ¬((2 : Nat) = 0 ∧ (2 : Nat) = 127) by omega),
      static_entry 2 dyn (by omega) (by omega)]
    rfl

/-- Witness for C6 at index 2. -/
theorem C6_static_decode_witness :
    http2_parse_headers_block_indexed [128 + 2] (⟨[], 0, 4096, 0⟩ : HTTP2DynTable) =
      some ([], ⟨strBytes (http2_static_table 2).1,
        strBytes (http2_static_table 2).2, .Success, 0⟩) :=
  (C6_static_decode 2 ⟨[], 0, 4096, 0⟩ (by decide) (by decide)).1

/-- C7: a Dynamic Table Size Update field returns IntegerOverflow with no
mutation on a VarInt overflow sentinel; otherwise it returns a SizeUpdate
pseudo-field carrying the decoded value, evicting oldest-first down to
the decoded size (or until empty) when that size is below `max_size`; it
never assigns `max_size` itself. -/
theorem C7_dynamic_size_update (b : Nat) (i2 i3 : List Nat) (m2 : Nat)
    (dyn : HTTP2DynTable) (hb1 : 32 ≤ b) (hb2 : b < 64) :
    (http2_parse_var_uint i2 (b % 32) 0x1F = some (i3, 0) → b % 32 = 0x1F →
      http2_parse_headers_block_dynamic_size (b :: i2) dyn =
        some (i3, ⟨[], [], .IntegerOverflow, 0⟩, dyn)) ∧
    (http2_parse_var_uint i2 (b % 32) 0x1F = some (i3, m2) →
      ¬(m2 = 0 ∧ b % 32 = 0x1F) →
      http2_parse_headers_block_dynamic_size (b :: i2) dyn =
        some (i3, ⟨[], [], .SizeUpdate, m2⟩, http2_dyn_size_evict dyn m2)) ∧
    (m2 < dyn.max_size →
      ∃ k, k ≤ dyn.table.length ∧
        (http2_dyn_size_evict dyn m2).table = dyn.table.drop k ∧
        (http2_dyn_size_evict dyn m2).current_size =
          dyn.current_size - tableSize (dyn.table.take k) ∧
        (∀ j, j < k → m2 < dyn.current_size - tableSize (dyn.table.take j)) ∧
        ((http2_dyn_size_evict dyn m2).current_size ≤ m2 ∨
          k = dyn.table.length)) ∧
    (dyn.max_size ≤ m2 → http2_dyn_size_evict dyn m2 = dyn) ∧
    ((http2_dyn_size_evict dyn m2).max_size = dyn.max_size ∧
      (http2_dyn_size_evict dyn m2).overflow = dyn.overflow) := by
  refine ⟨?_, ?_, ?_, ?_, ?_⟩
  · intro hvar h31
    simp only [http2_parse_headers_block_dynamic_size,
      if_pos (show b / 32 = 1 by omega), hvar]
    simp [h31]
  · intro hvar hne
    simp only [http2_parse_headers_block_dynamic_size,
      if_pos (show b / 32 = 1 by omega), hvar, if_neg hne]
  · intro hlt
    obtain ⟨k, hk, heq, hj, hend⟩ := evictFrom_spec m2 dyn.table dyn.current_size
    refine ⟨k, hk, ?_, ?_, hj, ?_⟩
    · simp only [http2_dyn_size_evict, if_pos hlt, heq]
    · simp only [http2_dyn_size_evict, if_pos hlt, heq]
    · simpa only [http2_dyn_size_evict, if_pos hlt, heq] using hend
  · intro hge
    simp only [http2_dyn_size_evict]
    rw [if_neg (by omega)]
  · constructor <;> (simp only [http2_dyn_size_evict]; split <;> rfl)

/-- Witness for C7: the byte `0x20` (prefix value 0) on a fresh table. -/
theorem C7_dynamic_size_update_witness :
    http2_parse_headers_block_dynamic_size [0x20] (⟨[], 0, 4096, 0⟩ : HTTP2DynTable) =
      some ([], ⟨[], [], .SizeUpdate, 0⟩,
        http2_dyn_size_evict ⟨[], 0, 4096, 0⟩ 0) :=
  (C7_dynamic_size_update 0x20 [] [] 0 ⟨[], 0, 4096, 0⟩ (by decide)
    (by decide)).2.1 (by decide) (by decide)

/-- Counterexample to C3 as stated: the literal-without-indexing field
`[0x0F, 0x2F, 0x00]` carries name index 62, which resolves to nothing in
an empty dynamic table, yet the returned field's status is `Success`
(with an empty name), not `NotIndexed`: `http2_frame_header_static`
returns `Some` on every path, and the literal decoder maps every `Some`
to `Success`. -/
theorem C3_not_indexed_counterexample :
    http2_parse_headers_block_literal_noindex (fun x => x) [15, 47, 0]
        ⟨[], 0, 4096, 0⟩ =
      some ([], ⟨[], [], .Success, 0⟩) ∧
    HTTP2HeaderDecodeStatus.Success ≠ HTTP2HeaderDecodeStatus.NotIndexed := by
  constructor
  · rfl
  · decide

/-- C3 (amended): for the literal variants with a nonzero name index, the
lookup helper always returns a field, so the literal decoder always tags
the result `Success` — an unresolved index yields an empty name with
`Success` status (not `NotIndexed`); a resolved index yields the resolved
entry's name; and in every case a literal value string is then decoded as
the field's value. -/
theorem C3_literal_name_resolution (huff : List Nat → List Nat)
    (input : List Nat) (index : Nat) (dyn : HTTP2DynTable) (h0 : index ≠ 0) :
    (∀ x, http2_frame_header_static index dyn = some x →
      http2_parse_headers_block_literal_common huff input index dyn =
        match http2_parse_headers_block_string huff input with
        | none => none
        | some (i4, value) => some (i4, ⟨x.name, value, .Success, 0⟩)) ∧
    (dyn.table.length + 61 < index →
      http2_frame_header_static index dyn = some ⟨[], [], .NotIndexed, 0⟩) ∧
    (∀ b i2 i3 nidx, b < 16 →
      http2_parse_var_uint i2 (b % 16) 0xF = some (i3, nidx) →
      ¬(nidx = 0 ∧ b % 16 = 0xF) →
      http2_parse_headers_block_literal_noindex huff (b :: i2) dyn =
        http2_parse_headers_block_literal_common huff i3 nidx dyn) ∧
    (∀ b i2 i3 nidx, 16 ≤ b → b < 32 →
      http2_parse_var_uint i2 (b % 16) 0xF = some (i3, nidx) →
      ¬(nidx = 0 ∧ b % 16 = 0xF) →
      http2_parse_headers_block_literal_neverindex huff (b :: i2) dyn =
        http2_parse_headers_block_literal_common huff i3 nidx dyn) ∧
    (∀ b i2 i3 nidx r head, 64 ≤ b → b < 128 →
      http2_parse_var_uint i2 (b % 64) 0x3F = some (i3, nidx) →
      ¬(nidx = 0 ∧ b % 64 = 0x3F) →
      http2_parse_headers_block_literal_common huff i3 nidx dyn = some (r, head) →
      ∃ d', http2_parse_headers_block_literal_incindex huff (b :: i2) dyn =
        some (r, head, d')) := by
  refine ⟨?_, static_out_of_range index dyn, ?_, ?_, ?_⟩
  · intro x hx
    simp only [http2_parse_headers_block_literal_common, if_neg h0, hx]
  · intro b i2 i3 nidx hb hvar hne
    simp only [http2_parse_headers_block_literal_noindex,
      if_pos (show b / 16 = 0 by omega), hvar, if_neg hne]
  · intro b i2 i3 nidx hb1 hb2 hvar hne
    simp only [http2_parse_headers_block_literal_neverindex,
      if_pos (show b / 16 = 1 by omega), hvar, if_neg hne]
  · intro b i2 i3 nidx r head hb1 hb2 hvar hne hcom
    simp only [http2_parse_headers_block_literal_incindex,
      if_pos (show b / 64 = 1 by omega), hvar, if_neg hne, hcom]
    split
    · exact ⟨_, rfl⟩
    · exact ⟨_, rfl⟩

/-- Witness for the amended C3: name index 62 against an empty table
decodes with empty name, Success status, and the value string `[]`. -/
theorem C3_literal_name_resolution_witness :
    http2_parse_headers_block_literal_common (fun x => x) [0] 62
        (⟨[], 0, 4096, 0⟩ : HTTP2DynTable) =
      match http2_parse_headers_block_string (fun x => x) [0] with
      | none => none
      | some (i4, value) =>
        some (i4, ⟨([] : List Nat), value, .Success, 0⟩) :=
  (C3_literal_name_resolution (fun x => x) [0] 62 ⟨[], 0, 4096, 0⟩
    (by decide)).1 ⟨[], [], .NotIndexed, 0⟩ (by rfl)

lemma loopF_congr (huff : List Nat → List Nat) :
    ∀ f i3 (dyn : HTTP2DynTable), i3.length < f →
      headersBlocksLoopF huff f i3 dyn = headersBlocksLoop huff i3 dyn := by
  intro f
  induction f using Nat.strong_induction_on with
  | _ f ih =>
    intro i3 dyn hlen
    match f with
    | 0 => omega
    | g + 1 =>
      simp only [headersBlocksLoop, headersBlocksLoopF]
      by_cases he : i3.isEmpty
      · simp [he]
      · simp only [he, if_false, Bool.false_eq_true]
        rcases hb : http2_parse_headers_block huff i3 dyn with _ | ⟨rem, b, dyn2⟩
        · rfl
        · simp only
          by_cases hr : rem.length < i3.length
          · rw [if_pos hr, if_pos hr,
              ih g (by omega) rem dyn2 (by omega),
              ih i3.length (by omega) rem dyn2 hr]
          · rw [if_neg hr, if_neg hr]

lemma loopF_rem_nil (huff : List Nat → List Nat) :
    ∀ fuel i3 (dyn : HTTP2DynTable) r,
      headersBlocksLoopF huff fuel i3 dyn = some r → r.1 = []
  | 0, i3, dyn, r => fun h => Option.noConfusion h
  | fuel + 1, i3, dyn, r => by
    intro h
    simp only [headersBlocksLoopF] at h
    split at h
    · rename_i he
      rw [Option.some_inj] at h
      rw [← h]
      simpa using he
    · split at h
      · exact Option.noConfusion h
      · split at h
        · split at h
          · exact Option.noConfusion h
          · rename_i r1 bs1 d1 hrr
            rw [Option.some_inj] at h
            rw [← h]
            exact loopF_rem_nil huff fuel _ _ (r1, bs1, d1) hrr
        · exact Option.noConfusion h

lemma loop_rem_nil (huff : List Nat → List Nat) (i3 : List Nat)
    (dyn : HTTP2DynTable) (r : List Nat × List HTTP2FrameHeaderBlock × HTTP2DynTable)
    (h : headersBlocksLoop huff i3 dyn = some r) : r.1 = [] :=
  loopF_rem_nil huff (i3.length + 1) i3 dyn r h

/-- C8: the header-block sequence decoder consumes the whole payload on
success (a successful decode always has an empty remainder); when the
payload is non-empty it decodes one field from the remainder and recurses
on the strictly smaller rest, and whenever a single field decode
consumes zero bytes, the whole frame's header decoding fails with a
parse error instead of looping. -/
theorem C8_block_sequence (huff : List Nat → List Nat) (input : List Nat)
    (dyn : HTTP2DynTable) :
    (∀ r, headersBlocksLoop huff input dyn = some r → r.1 = []) ∧
    (∀ flags r, http2_parse_frame_headers huff input flags dyn = some r →
      r.1 = []) ∧
    (input ≠ [] → headersBlocksLoop huff input dyn =
      match http2_parse_headers_block huff input dyn with
      | none => none
      | some (rem, b, dyn2) =>
        if rem.length < input.length then
          match headersBlocksLoop huff rem dyn2 with
          | none => none
          | some (r, bs, d) => some (r, b :: bs, d)
        else none) ∧
    (∀ rem b dyn2, input ≠ [] →
      http2_parse_headers_block huff input dyn = some (rem, b, dyn2) →
      rem.length = input.length → headersBlocksLoop huff input dyn = none) ∧
    (http2_parse_frame_continuation huff input dyn =
      (headersBlocksLoop huff input dyn).map (fun x => (x.1, ⟨x.2.1⟩, x.2.2))) := by
  have hunf : input ≠ [] → headersBlocksLoop huff input dyn =
      match http2_parse_headers_block huff input dyn with
      | none => none
      | some (rem, b, dyn2) =>
        if rem.length < input.length then
          match headersBlocksLoop huff rem dyn2 with
          | none => none
          | some (r, bs, d) => some (r, b :: bs, d)
        else none := by
    intro hne
    conv_lhs => rw [headersBlocksLoop]
    simp only [headersBlocksLoopF,
      if_neg (show ¬input.isEmpty = true by simpa using hne)]
    rcases hb : http2_parse_headers_block huff input dyn with _ | ⟨rem, b, dyn2⟩
    · rfl
    · simp only
      by_cases hr : rem.length < input.length
      · rw [loopF_congr huff input.length rem dyn2 hr]
      · rw [if_neg hr, if_neg hr]
  refine ⟨fun r => loop_rem_nil huff input dyn r, ?_, hunf, ?_, rfl⟩
  · intro flags r h
    simp only [http2_parse_frame_headers] at h
    split at h
    · exact Option.noConfusion h
    · split at h
      · exact Option.noConfusion h
      · split at h
        · exact Option.noConfusion h
        · rename_i rr bs dd hrr
          rw [Option.some_inj] at h
          rw [← h]
          exact loop_rem_nil huff _ _ (rr, bs, dd) hrr
  · intro rem b dyn2 hne hb hlen
    rw [hunf hne, hb]
    simp only
    rw [if_neg (by omega)]

/-- Witness for C8: the single-field payload `[0x82]` decodes with empty
remainder. -/
theorem C8_block_sequence_witness :
    (([], [⟨strBytes ":method", strBytes "GET", .Success, 0⟩],
        (⟨[], 0, 4096, 0⟩ : HTTP2DynTable)) :
      List Nat × List HTTP2FrameHeaderBlock × HTTP2DynTable).1 = ([] : List Nat) :=
  (C8_block_sequence (fun x => x) [0x82] ⟨[], 0, 4096, 0⟩).1
    ([], [⟨strBytes ":method", strBytes "GET", .Success, 0⟩], ⟨[], 0, 4096, 0⟩)
    (by rfl)

/-- C9: the Settings decoder consumes recognized (16-bit id, 32-bit value)
pairs and, at the first pair with an id outside 1–6, stops and returns
exactly the decoded prefix as a success — never an error, and none of the
pairs from the unrecognized id onward; a payload of only recognized pairs
is consumed entirely. -/
theorem C9_settings_stop_at_unknown (good : List (Nat × Nat)) (badid badval : Nat)
    (tail : List Nat)
    (hgood : ∀ p ∈ good, 1 ≤ p.1 ∧ p.1 ≤ 6 ∧ p.1 < 65536 ∧ p.2 < 4294967296)
    (hbad : ¬(1 ≤ badid ∧ badid ≤ 6)) :
    http2_parse_frame_settings
        (encodeSettings good ++ (encodePair badid badval ++ tail)) =
      (encodePair badid badval ++ tail,
        good.map (fun p => ⟨p.1, p.2⟩)) ∧
    http2_parse_frame_settings (encodeSettings good) =
      ([], good.map (fun p => ⟨p.1, p.2⟩)) := by
  induction good with
  | nil =>
    constructor
    · simp only [encodeSettings, List.nil_append, encodePair, List.cons_append,
        List.map_nil]
      simp only [http2_parse_frame_settings]
      rw [if_neg (by omega)]
    · simp only [encodeSettings, List.map_nil]
      rfl
  | cons p good ih =>
    obtain ⟨h1, h6, h16, h32⟩ := hgood p (by simp)
    obtain ⟨ih1, ih2⟩ := ih (fun q hq => hgood q (by simp [hq]))
    have hdec : p.1 / 256 * 256 + p.1 % 256 = p.1 := by omega
    have hval : ((p.2 / 2 ^ 24 % 256 * 256 + p.2 / 2 ^ 16 % 256) * 256 +
        p.2 / 2 ^ 8 % 256) * 256 + p.2 % 256 = p.2 := by omega
    constructor
    · simp only [encodeSettings, encodePair, List.cons_append, List.append_assoc,
        List.nil_append, List.map_cons] at ih1 ⊢
      simp only [http2_parse_frame_settings]
      rw [if_pos (by constructor <;> omega), ih1]
      simp [hdec]
      omega
    · simp only [encodeSettings, encodePair, List.cons_append, List.nil_append,
        List.map_cons] at ih2 ⊢
      simp only [http2_parse_frame_settings]
      rw [if_pos (by constructor <;> omega), ih2]
      simp [hdec]
      omega

/-- Witness for C9: one recognized pair (id 3, value 100) followed by the
unrecognized id 9 and a trailing recognized pair that must not be
returned. -/
theorem C9_settings_stop_at_unknown_witness :
    http2_parse_frame_settings
        (encodeSettings [(3, 100)] ++ (encodePair 9 1 ++ [0, 2, 0, 0, 0, 1])) =
      (encodePair 9 1 ++ [0, 2, 0, 0, 0, 1], [⟨3, 100⟩]) :=
  (C9_settings_stop_at_unknown [(3, 100)] 9 1 [0, 2, 0, 0, 0, 1]
    (by decide) (by decide)).1

end Http2
